import Mathlib

/-!
Verification of `react-universal-state` (a small shared-state utility for React).

The development shallowly embeds the repository's core — the observable
key-value store — into Lean:

* a JavaScript object used as a key-value map (`MemoryBackend.gs` in
  `src/persistence/memory.ts`, `gs` in the local-storage backends) is an
  insertion-ordered association list `Obj V` with `objGet` / `objSet`
  mirroring `gs[k]` reads and `gs[k] = v` writes (JS `undefined` is
  `Option.none`);
* the subscriber registry is a list in insertion order — the `Set`-based
  registry of `createState` keeps it duplicate-free, while the array-based
  registry of `createGlobalStateHook`/`createGlobalStateHOC` stores an index
  at subscription time and removes by `splice(ind, 1)`;
* a `set` call is modelled by the trace of events it performs before
  returning: backend commits followed by subscriber notifications.

Values are a type parameter `V`; keys are `String` as in the source.
-/

namespace ReactUniversalState

/-- A JavaScript object used as a string-keyed map: insertion-ordered
association list with (by construction) at most one entry per key.
`none` models `undefined`. -/
abbrev Obj (V : Type) := List (String × V)

/-- Reading `gs[k]` from a JS object: the value of the entry for `k`, or
`undefined` (`none`) when absent. -/
def objGet {V : Type} : Obj V → String → Option V
  | [], _ => none
  | p :: rest, k => if p.1 = k then some p.2 else objGet rest k

/-- Writing `gs[k] = v` to a JS object: replaces the existing entry for `k`
in place, or appends a new entry at the end (JS objects keep insertion
order, and re-assigning a property keeps its original position). -/
def objSet {V : Type} : Obj V → String → V → Obj V
  | [], k, v => [(k, v)]
  | p :: rest, k, v => if p.1 = k then (k, v) :: rest else p :: objSet rest k v

theorem objGet_objSet_self {V : Type} (gs : Obj V) (k : String) (v : V) :
    objGet (objSet gs k v) k = some v := by
  induction gs with
  | nil => simp [objGet, objSet]
  | cons p rest ih =>
    by_cases h : p.1 = k
    · simp [objGet, objSet, h]
    · simp [objGet, objSet, h, ih]

theorem objGet_objSet_ne {V : Type} (gs : Obj V) {k k' : String} (v : V)
    (hne : k' ≠ k) : objGet (objSet gs k v) k' = objGet gs k' := by
  have hkk : ¬(k = k') := fun hh => hne hh.symm
  induction gs with
  | nil => simp [objGet, objSet, hkk]
  | cons p rest ih =>
    by_cases h : p.1 = k
    · simp only [objSet, h, if_true, objGet]
      rw [if_neg hkk, if_neg (h ▸ hkk)]
    · by_cases h' : p.1 = k'
      · simp only [objSet, h, if_false, h', hne, objGet, if_true]
      · simp [objGet, objSet, h, h', ih]

/-- The `MemoryBackend` of `src/persistence/memory.ts`: its private `gs`
object starts empty (`private gs: T = {} as T`); `get`/`set` are `objGet` /
`objSet` on it. -/
def MemoryBackend.init {V : Type} : Obj V := []

/-- A sequence of `backend.set(key, value)` calls applied in order. -/
def applySets {V : Type} (gs : Obj V) (ops : List (String × V)) : Obj V :=
  ops.foldl (fun g p => objSet g p.1 p.2) gs

/-- The value of the most recent `set` for `k` in a sequence of set calls,
or `none` when the sequence never sets `k`. -/
def lastSet {V : Type} : List (String × V) → String → Option V
  | [], _ => none
  | p :: rest, k =>
    match lastSet rest k with
    | some v => some v
    | none => if p.1 = k then some p.2 else none

theorem objGet_applySets {V : Type} (gs : Obj V) (ops : List (String × V))
    (k : String) :
    objGet (applySets gs ops) k = (lastSet ops k).or (objGet gs k) := by
  induction ops generalizing gs with
  | nil => simp [applySets, lastSet]
  | cons p rest ih =>
    show objGet (applySets (objSet gs p.1 p.2) rest) k = _
    rw [ih]
    cases hrest : lastSet rest k with
    | some v => simp [lastSet, hrest]
    | none =>
      by_cases hk : p.1 = k
      · subst hk
        simp [lastSet, hrest, objGet_objSet_self, Option.or]
      · have : k ≠ p.1 := fun hh => hk hh.symm
        simp [lastSet, hrest, objGet_objSet_ne gs p.2 this, hk, Option.or]

/-- The default-seeding loop run at store construction (`createState` in
the `createState` variants, and inline in `createGlobalStateHook` /
`createGlobalStateHOC`): for each key `k` of `defaults` in order,
`if (backend.get(k) === undefined) backend.set(k, defaults[k])`. -/
def seedDefaults {V : Type} (defaults : Obj V) (b : Obj V) : Obj V :=
  defaults.foldl
    (fun b p => if (objGet b p.1).isNone then objSet b p.1 p.2 else b) b

theorem seedDefaults_not_mem {V : Type} (defaults b : Obj V) {k : String}
    (h : k ∉ defaults.map Prod.fst) :
    objGet (seedDefaults defaults b) k = objGet b k := by
  induction defaults generalizing b with
  | nil => rfl
  | cons p rest ih =>
    simp only [List.map_cons, List.mem_cons, not_or] at h
    show objGet (seedDefaults rest _) k = _
    rw [ih _ h.2]
    by_cases hb : (objGet b p.1).isNone
    · simp only [hb, if_true]
      exact objGet_objSet_ne b p.2 h.1
    · simp [hb]

theorem seedDefaults_isSome {V : Type} (defaults b : Obj V) {k : String}
    (h : (objGet b k).isSome) :
    objGet (seedDefaults defaults b) k = objGet b k := by
  induction defaults generalizing b with
  | nil => rfl
  | cons p rest ih =>
    show objGet (seedDefaults rest _) k = _
    by_cases hb : (objGet b p.1).isNone
    · simp only [hb, if_true]
      by_cases hk : p.1 = k
      · subst hk
        rw [Option.isNone_iff_eq_none] at hb
        rw [hb] at h
        simp at h
      · rw [ih (objSet b p.1 p.2)
          (by rwa [objGet_objSet_ne b p.2 (fun hh => hk hh.symm)]),
          objGet_objSet_ne b p.2 (fun hh => hk hh.symm)]
    · simp only [hb, if_false]
      exact ih b h

theorem seedDefaults_mem {V : Type} (defaults b : Obj V) {k : String}
    {d : V} (hnd : (defaults.map Prod.fst).Nodup)
    (hmem : (k, d) ∈ defaults) :
    objGet (seedDefaults defaults b) k = some ((objGet b k).getD d) := by
  induction defaults generalizing b with
  | nil => simp at hmem
  | cons p rest ih =>
    obtain ⟨pk, pv⟩ := p
    simp only [List.map_cons, List.nodup_cons] at hnd
    show objGet (seedDefaults rest _) k = _
    rcases List.mem_cons.1 hmem with heq | hrest
    · obtain ⟨hk, hd⟩ := Prod.mk.inj heq.symm
      subst hk hd
      have hnot : pk ∉ rest.map Prod.fst := hnd.1
      by_cases hb : objGet b pk = none
      · simp only [hb, Option.isNone_none, if_true]
        rw [seedDefaults_not_mem rest _ hnot, objGet_objSet_self]
        simp [hb]
      · have hb' : (objGet b pk).isNone = false := by
          cases hx : objGet b pk with
          | none => exact absurd hx hb
          | some w => simp
        simp only [hb', Bool.false_eq_true, if_false]
        rw [seedDefaults_not_mem rest b hnot]
        rcases Option.ne_none_iff_exists'.1 hb with ⟨w, hw⟩
        simp [hw]
    · have hkrest : k ∈ rest.map Prod.fst :=
        List.mem_map.2 ⟨(k, d), hrest, rfl⟩
      have hpk : k ≠ pk := fun hh => hnd.1 (hh ▸ hkrest)
      by_cases hb : (objGet b pk).isNone
      · simp only [hb, if_true]
        rw [ih _ hnd.2 hrest, objGet_objSet_ne b pv hpk]
      · simp only [hb, if_false]
        exact ih b hnd.2 hrest

/-- C2: for every key and every sequence of setter calls, a subsequent
`get` on the memory backend (seeded from `defaults` at construction)
returns the most recently set value (last-write-wins); for a key never set
and absent from `defaults`, `get` returns the absent sentinel (`none`) —
`objGet` is a total function, so no error can be raised. -/
theorem claim_C2 {V : Type} (defaults : Obj V) (ops : List (String × V))
    (k : String) (v : V) :
    (lastSet ops k = some v →
      objGet (applySets (seedDefaults defaults MemoryBackend.init) ops) k
        = some v) ∧
    (lastSet ops k = none → k ∉ defaults.map Prod.fst →
      objGet (applySets (seedDefaults defaults MemoryBackend.init) ops) k
        = none) := by
  constructor
  · intro h
    rw [objGet_applySets, h]
    rfl
  · intro h hk
    rw [objGet_applySets, h, Option.none_or, seedDefaults_not_mem _ _ hk]
    rfl

/-- Witness for C2 at a concrete input: two writes to `"b"` then a read
yields the second value, and a read of the never-set, non-default key
`"c"` yields `none`. -/
theorem claim_C2_witness :
    objGet (applySets (seedDefaults [("a", (1 : Nat))] MemoryBackend.init)
      [("b", 2), ("b", 3)]) "b" = some 3 ∧
    objGet (applySets (seedDefaults [("a", (1 : Nat))] MemoryBackend.init)
      [("b", 2), ("b", 3)]) "c" = none :=
  ⟨(claim_C2 [("a", 1)] [("b", 2), ("b", 3)] "b" 3).1 (by decide),
   (claim_C2 [("a", 1)] [("b", 2), ("b", 3)] "c" 3).2 (by decide) (by decide)⟩

/-- C3: for every key of `defaults`, immediately after construction `get`
returns `defaults[k]` when the backend had no prior value for `k` and the
backend's prior value otherwise (`(objGet b k).getD d` covers both cases);
moreover the seeding loop writes only to keys whose backend value is
absent: any key the backend already held a value for — and any key outside
`defaults` — reads the same after the loop. -/
theorem claim_C3 {V : Type} (defaults b : Obj V) (k : String) (d : V)
    (hnd : (defaults.map Prod.fst).Nodup) (hmem : (k, d) ∈ defaults) :
    objGet (seedDefaults defaults b) k = some ((objGet b k).getD d) ∧
    (∀ k', (objGet b k').isSome ∨ k' ∉ defaults.map Prod.fst →
      objGet (seedDefaults defaults b) k' = objGet b k') :=
  ⟨seedDefaults_mem defaults b hnd hmem,
   fun _ h => h.elim (fun h1 => seedDefaults_isSome defaults b h1)
     (fun h2 => seedDefaults_not_mem defaults b h2)⟩

/-- Witness for C3 at a concrete input: defaults
`{firstLogin: "t", theme: "light"}` over a backend that already persisted
`theme = "dark"`: the unseeded key gets its default, the persisted one is
not clobbered. -/
theorem claim_C3_witness :
    objGet (seedDefaults [("firstLogin", "t"), ("theme", "light")]
      [("theme", "dark")]) "firstLogin" = some "t" ∧
    objGet (seedDefaults [("firstLogin", "t"), ("theme", "light")]
      [("theme", "dark")]) "theme" = some "dark" := by
  constructor
  · have h := (claim_C3 [("firstLogin", "t"), ("theme", "light")]
      [("theme", "dark")] "firstLogin" "t" (by decide) (by decide)).1
    rw [h]
    rfl
  · have h := (claim_C3 [("firstLogin", "t"), ("theme", "light")]
      [("theme", "dark")] "theme" "light" (by decide) (by decide)).1
    rw [h]
    rfl

/-- An observable step performed inside a setter call, in program order:
a backend commit `backend.set(k, v)` or a subscriber notification
`f(upd)`. Subscribers are identified by opaque ids (`Nat`). -/
inductive Event (V : Type) where
  | commit (k : String) (v : V)
  | notify (sub : Nat) (upd : Obj V)
deriving DecidableEq

/-- Whether an event is a backend commit. -/
def Event.isCommit {V : Type} : Event V → Bool
  | .commit _ _ => true
  | _ => false

/-- Whether an event is a subscriber notification. -/
def Event.isNotify {V : Type} : Event V → Bool
  | .notify _ _ => true
  | _ => false

/-- The argument accepted by a setter (React's `SetStateAction`): a literal
value or a one-argument functional updater. -/
inductive SetArg (V : Type) where
  | lit (v : V)
  | fn (f : V → V)

/-- Resolution `val instanceof Function ? val(prior) : val`: a functional argument is
resolved by invoking it with the prior value, a literal resolves to
itself. -/
def resolveArg {V : Type} : SetArg V → V → V
  | .lit v, _ => v
  | .fn f, prior => f prior

/-- The store state a `set` call touches: the backend's object and the
subscriber registry in insertion order. -/
structure Store (V : Type) where
  backend : Obj V
  subs : List Nat

/-- The per-key setter returned by `hooks[k]` (the `createState` variants
and `createGlobalStateHook`), run to completion:
`const newVal = val instanceof Function ? val(state) : val;
backend.set(k, newVal);
for (const f of stateSubs) f({[k]: newVal});`.
`prior` is the value the closure knows for `k` (the `state` snapshot, or
`curState.current` in the `useRef` variant). The result is the updated
store together with the ordered trace of every event the call performs
before returning. -/
def hookSetTrace {V : Type} (st : Store V) (k : String) (prior : V)
    (val : SetArg V) : Store V × List (Event V) :=
  let newVal := resolveArg val prior
  ({ st with backend := objSet st.backend k newVal },
    Event.commit k newVal ::
      st.subs.map (fun s => Event.notify s [(k, newVal)]))

theorem notify_injective {V : Type} (k : String) (nv : V) :
    Function.Injective (fun s => Event.notify s [(k, nv)]) := by
  intro a b h
  simpa using h

/-- C1: a single per-key setter call with `N` currently-registered
subscribers produces exactly `N` notification events; each registered
subscriber is notified exactly once, every notification carries the
partial update `{k: newVal}`, and every notification is an event of the
call's own trace, i.e. it completes before the setter returns. -/
theorem claim_C1 {V : Type} [DecidableEq V] (st : Store V) (k : String)
    (prior : V) (val : SetArg V) (hnd : st.subs.Nodup) :
    ((hookSetTrace st k prior val).2.filter Event.isNotify).length
      = st.subs.length ∧
    (∀ s ∈ st.subs, (hookSetTrace st k prior val).2.count
      (Event.notify s [(k, resolveArg val prior)]) = 1) ∧
    (∀ s upd, Event.notify s upd ∈ (hookSetTrace st k prior val).2 →
      s ∈ st.subs ∧ upd = [(k, resolveArg val prior)]) := by
  refine ⟨?_, ?_, ?_⟩
  · show (List.filter _ (Event.commit k _ :: st.subs.map _)).length = _
    rw [List.filter_cons]
    have hcnot : Event.isNotify (Event.commit k (resolveArg val prior) : Event V)
        = false := rfl
    rw [hcnot, if_neg (show ¬(false = true) by simp)]
    rw [List.filter_eq_self.mpr, List.length_map]
    intro e he
    obtain ⟨s, _, rfl⟩ := List.mem_map.1 he
    rfl
  · intro s hs
    show List.count _ (Event.commit k _ :: st.subs.map _) = 1
    rw [List.count_cons]
    rw [if_neg (show ¬((Event.commit k (resolveArg val prior)
        == Event.notify s [(k, resolveArg val prior)]) = true) by simp),
      Nat.add_zero,
      List.count_map_of_injective _ _ (notify_injective k _),
      List.count_eq_one_of_mem hnd hs]
  · intro s upd hmem
    rcases List.mem_cons.1 hmem with heq | hmap
    · cases heq
    · obtain ⟨s', hs', heq⟩ := List.mem_map.1 hmap
      cases heq
      exact ⟨hs', rfl⟩

/-- Witness for C1 at a concrete input: three subscribers, a literal write
`set("k", 9)` over a `Nat`-valued store. -/
theorem claim_C1_witness :
    ((hookSetTrace ⟨[("k", (0 : Nat))], [5, 7, 11]⟩ "k" 0 (SetArg.lit 9)).2.filter
      Event.isNotify).length = 3 ∧
    (hookSetTrace ⟨[("k", (0 : Nat))], [5, 7, 11]⟩ "k" 0 (SetArg.lit 9)).2.count
      (Event.notify 7 [("k", 9)]) = 1 := by
  have h := claim_C1 (⟨[("k", (0 : Nat))], [5, 7, 11]⟩ : Store Nat) "k" 0
    (SetArg.lit 9) (by decide)
  exact ⟨h.1, h.2.1 7 (by decide)⟩

/-- The `targetUpdate` object of the `useRef` HOC variant's `setGlobalState`: the
resolved mapping restricted to the HOC's watched keys, built by
`for (const k of keys) if (newGlobalState.hasOwnProperty(k))
targetUpdate[k] = newGlobalState[k]` starting from an empty object. -/
def targetUpdate {V : Type} (keys : List String) (m : Obj V) : Obj V :=
  keys.foldl
    (fun t k =>
      match objGet m k with
      | some v => objSet t k v
      | none => t) []

/-- The `setGlobalState` function of the HOC variants, run to completion: every key of
the update object is committed to the backend in order
(`for (const k in newGlobalState) backend.set(k, newGlobalState[k])`),
and only then is every registered subscriber invoked once with the full
update object (`for (const f of stateSubs) f(newGlobalState)`).
`createGlobalStateHOC` passes the whole resolved mapping as `upd`; the
`useRef` variant passes `targetUpdate keys m`. The result is the updated
store and the ordered trace of the call. -/
def setGlobalStateTrace {V : Type} (st : Store V) (upd : Obj V) :
    Store V × List (Event V) :=
  ({ st with backend := applySets st.backend upd },
    upd.map (fun p => Event.commit p.1 p.2) ++
      st.subs.map (fun s => Event.notify s upd))

theorem isCommit_not_isNotify {V : Type} {e : Event V}
    (h : e.isCommit = true) : e.isNotify = false := by
  cases e with
  | commit k v => rfl
  | notify s u => cases h

/-- In the trace of a `setGlobalState` call, a commit index is below
`upd.length` and a notify index is at least `upd.length`. -/
theorem setGlobalStateTrace_commit_index {V : Type} (st : Store V)
    (upd : Obj V) (i : Nat) (e : Event V)
    (he : (setGlobalStateTrace st upd).2[i]? = some e)
    (hc : e.isCommit = true) : i < upd.length := by
  by_contra hge
  push_neg at hge
  rw [show (setGlobalStateTrace st upd).2 = upd.map (fun p => Event.commit p.1 p.2) ++
    st.subs.map (fun s => Event.notify s upd) from rfl] at he
  rw [List.getElem?_append_right (by simpa using hge)] at he
  have hmem : e ∈ st.subs.map (fun s => Event.notify s upd) :=
    List.getElem?_mem he
  obtain ⟨s, _, heq⟩ := List.mem_map.1 hmem
  rw [← heq] at hc
  cases hc

theorem setGlobalStateTrace_notify_index {V : Type} (st : Store V)
    (upd : Obj V) (j : Nat) (e : Event V)
    (he : (setGlobalStateTrace st upd).2[j]? = some e)
    (hn : e.isNotify = true) : upd.length ≤ j := by
  by_contra hlt
  push_neg at hlt
  rw [show (setGlobalStateTrace st upd).2 = upd.map (fun p => Event.commit p.1 p.2) ++
    st.subs.map (fun s => Event.notify s upd) from rfl] at he
  rw [List.getElem?_append_left (by simpa using hlt)] at he
  have hmem : e ∈ upd.map (fun p => Event.commit p.1 p.2) :=
    List.getElem?_mem he
  obtain ⟨p, _, heq⟩ := List.mem_map.1 hmem
  rw [← heq] at hn
  cases hn

/-- C5: a multi-key batched write through `setGlobalState` with a mapping
of two or more keys commits every changed key to the backend before any
subscriber is notified (every commit event precedes every notify event in
the call's trace), and each registered subscriber receives exactly one
notification, whose partial update is the whole mapping of changed keys
rather than one notification per key. -/
theorem claim_C5 {V : Type} [DecidableEq V] (st : Store V) (upd : Obj V)
    (htwo : 2 ≤ upd.length) (hnd : st.subs.Nodup) :
    (∀ p ∈ upd, Event.commit p.1 p.2 ∈ (setGlobalStateTrace st upd).2) ∧
    (∀ (i j : Nat) (e f : Event V), (setGlobalStateTrace st upd).2[i]? = some e →
      (setGlobalStateTrace st upd).2[j]? = some f →
      e.isCommit = true → f.isNotify = true → i < j) ∧
    (∀ s ∈ st.subs,
      (setGlobalStateTrace st upd).2.count (Event.notify s upd) = 1) ∧
    (∀ s m, Event.notify s m ∈ (setGlobalStateTrace st upd).2 → m = upd) := by
  refine ⟨?_, ?_, ?_, ?_⟩
  · intro p hp
    exact List.mem_append_left _ (List.mem_map.2 ⟨p, hp, rfl⟩)
  · intro i j e f he hf hc hn
    have h1 := setGlobalStateTrace_commit_index st upd i e he hc
    have h2 := setGlobalStateTrace_notify_index st upd j f hf hn
    omega
  · intro s hs
    show List.count _ (upd.map _ ++ st.subs.map _) = 1
    rw [List.count_append]
    have hzero : (upd.map (fun p => Event.commit p.1 p.2)).count
        (Event.notify s upd) = 0 := by
      rw [List.count_eq_zero]
      intro hmem
      obtain ⟨p, _, heq⟩ := List.mem_map.1 hmem
      cases heq
    rw [hzero, Nat.zero_add,
      List.count_map_of_injective _ _
        (show Function.Injective (fun s => Event.notify s upd) by
          intro a b h
          simpa using h),
      List.count_eq_one_of_mem hnd hs]
  · intro s m hmem
    rcases List.mem_append.1 hmem with hA | hB
    · obtain ⟨p, _, heq⟩ := List.mem_map.1 hA
      cases heq
    · obtain ⟨s', _, heq⟩ := List.mem_map.1 hB
      cases heq
      rfl

/-- Witness for C5 at a concrete input: the batched write
`setGlobalState({a: 1, b: 2})` with two subscribers. -/
theorem claim_C5_witness :
    (Event.commit "a" 1 ∈
      (setGlobalStateTrace ⟨[], [4, 6]⟩ [("a", (1 : Nat)), ("b", 2)]).2) ∧
    (setGlobalStateTrace ⟨[], [4, 6]⟩ [("a", (1 : Nat)), ("b", 2)]).2.count
      (Event.notify 4 [("a", 1), ("b", 2)]) = 1 := by
  have h := claim_C5 (⟨[], [4, 6]⟩ : Store Nat) [("a", 1), ("b", 2)]
    (by decide) (by decide)
  exact ⟨h.1 ("a", 1) (by decide), h.2.2.1 4 (by decide)⟩

/-- The per-key setter of the `useRef` variant, which resolves functional
arguments against `curState.current` — the latest value committed for `k`:
`const newVal = typeof val === 'function' ? val(curState.current) : val;
curState.current = newVal; backend.set(k, newVal);`. Returns the updated
backend and the updated ref. -/
def hookSetCur {V : Type} (backend : Obj V) (cur : V) (k : String)
    (val : SetArg V) : Obj V × V :=
  let newVal := resolveArg val cur
  (objSet backend k newVal, newVal)

/-- C6: a setter argument that is a function is invoked with the prior
value and its result is the committed value — so from a current value of
`5`, `set(prev => prev + 1)` makes a subsequent `get(key)` return `6`
(witnessed concretely below) — while a non-function argument is committed
literally. `hcur` states that `cur` (the value `curState.current` holds)
is the value currently committed for `k`. -/
theorem claim_C6 {V : Type} (b : Obj V) (cur : V) (k : String) (f : V → V)
    (v : V) (hcur : objGet b k = some cur) :
    objGet (hookSetCur b cur k (SetArg.fn f)).1 k = some (f cur) ∧
    objGet (hookSetCur b cur k (SetArg.lit v)).1 k = some v :=
  ⟨objGet_objSet_self b k (f cur), objGet_objSet_self b k v⟩

/-- Witness for C6 at the claim's concrete input: current value `5`,
transformer `prev => prev + 1`, subsequent `get` returns `6`; a literal
write of `7` commits `7`. -/
theorem claim_C6_witness :
    objGet (hookSetCur [("n", (5 : Int))] 5 "n"
      (SetArg.fn (fun prev => prev + 1))).1 "n" = some 6 ∧
    objGet (hookSetCur [("n", (5 : Int))] 5 "n" (SetArg.lit 7)).1 "n"
      = some 7 := by
  have h := claim_C6 [("n", (5 : Int))] 5 "n" (fun prev => prev + 1) 7
    (by decide)
  refine ⟨?_, h.2⟩
  rw [h.1]
  decide

/-- The call `key.sort()`: the JS default sort on an array of string keys orders it
lexicographically. JS `Array.prototype.sort` mutates the array in place
and returns it; it is modelled by a stable sort of the list, which is both
the returned list and the content of the caller's array after the call. -/
def sortKeys (ks : List String) : List String := ks.mergeSort

/-- The multi-key branch of the returned hook:
`if (Array.isArray(key)) { const ret = {};
for (const k of key.sort()) ret[k] = hooks[k](); return ret; }`
with `key` defaulting to `defaultKeys = Object.keys(defaults)`. The
result object's keys in order: the requested list (or, when absent, the
default key array — which, being an array, is itself sorted) in sorted
order. -/
def hookResultKeys (defaultKeys : List String) :
    Option (List String) → List String
  | none => sortKeys defaultKeys
  | some ks => sortKeys ks

/-- The result object of the multi-key accessor over backend `b`: each
requested key, in result order, paired with its per-key hook's current
value. -/
def hookMultiResult {V : Type} (b : Obj V) (defaultKeys : List String)
    (ks : Option (List String)) : List (String × Option V) :=
  (hookResultKeys defaultKeys ks).map (fun k => (k, objGet b k))

/-- The content of the caller-supplied key array after the accessor call
(`key.sort()` sorted it in place). -/
def hookArgAfter (ks : List String) : List String := sortKeys ks

theorem sortKeys_eq_of_perm {ks₁ ks₂ : List String} (h : ks₁.Perm ks₂) :
    sortKeys ks₁ = sortKeys ks₂ :=
  List.eq_of_perm_of_sorted
    (((ks₁.mergeSort_perm _).trans h).trans (ks₂.mergeSort_perm _).symm)
    (List.sorted_mergeSort' ks₁) (List.sorted_mergeSort' ks₂)

/-- C9: the multi-key accessor sorts the requested key list into canonical
(lexicographic) order before composing the per-key results, so any two
permutations of the same key set produce result objects with identical
key ordering; with no key list supplied, the result ranges over exactly
the keys known from `defaults`. -/
theorem claim_C9 {V : Type} (b : Obj V) (defaultKeys ks₁ ks₂ : List String)
    (hperm : ks₁.Perm ks₂) :
    hookMultiResult b defaultKeys (some ks₁)
      = hookMultiResult b defaultKeys (some ks₂) ∧
    (hookResultKeys defaultKeys none).Perm defaultKeys := by
  constructor
  · show (sortKeys ks₁).map _ = (sortKeys ks₂).map _
    rw [sortKeys_eq_of_perm hperm]
  · exact defaultKeys.mergeSort_perm _

/-- Witness for C9 at a concrete input: the key sets
`["theme", "firstLogin"]` and `["firstLogin", "theme"]` produce the same
result object. -/
theorem claim_C9_witness :
    hookMultiResult [("theme", "dark")] ["theme", "firstLogin"]
      (some ["theme", "firstLogin"])
      = hookMultiResult [("theme", "dark")] ["theme", "firstLogin"]
        (some ["firstLogin", "theme"]) ∧
    (hookResultKeys ["theme", "firstLogin"] none).Perm
      ["theme", "firstLogin"] :=
  claim_C9 [("theme", "dark")] ["theme", "firstLogin"]
    ["theme", "firstLogin"] ["firstLogin", "theme"] (by decide)

/-- C10: the multi-key accessor calls `key.sort()` on the caller's array,
an in-place mutation: after the call the caller-supplied array itself is
permuted into sorted order (an observable side effect on the argument). -/
theorem claim_C10 (ks : List String) :
    (hookArgAfter ks).Perm ks ∧ (hookArgAfter ks).Sorted (· ≤ ·) :=
  ⟨ks.mergeSort_perm _, List.sorted_mergeSort' ks⟩

/-- A subscriber in a dispatch scenario: an opaque callback identity plus
whether invoking its callback makes it unsubscribe itself during the
dispatch. -/
structure Sub where
  id : Nat
  selfUnsub : Bool
deriving DecidableEq

/-- Notification dispatch over the Set-based registry of `createState`
(`for (const f of stateSubs) f(upd)`, where a callback may run its own
cleanup `stateSubs.delete(cb)`). JS `Set` iteration visits entries in
insertion order, and deleting the entry currently being visited does not
affect which later entries the iterator visits. `todo` is the iterator's
remaining entries, `reg` the live registry; returns the final registry
and the invoked callback ids in order. -/
def dispatchSet : List Sub → List Sub → List Sub × List Nat
  | [], reg => (reg, [])
  | s :: rest, reg =>
    let reg' := if s.selfUnsub then reg.erase s else reg
    let r := dispatchSet rest reg'
    (r.1, s.id :: r.2)

/-- One complete dispatch of a notification to the Set-based registry
`reg`. -/
def dispatchSetRun (reg : List Sub) : List Sub × List Nat :=
  dispatchSet reg reg

theorem dispatchSet_invoked (todo reg : List Sub) :
    (dispatchSet todo reg).2 = todo.map Sub.id := by
  induction todo generalizing reg with
  | nil => rfl
  | cons s rest ih =>
    show (_, s.id :: (dispatchSet rest _).2).2 = _
    rw [List.map_cons, ih]

theorem dispatchSet_registry (todo reg : List Sub) :
    (dispatchSet todo reg).1
      = reg.diff (todo.filter Sub.selfUnsub) := by
  induction todo generalizing reg with
  | nil => rfl
  | cons s rest ih =>
    show (dispatchSet rest (if s.selfUnsub then reg.erase s else reg)).1 = _
    by_cases h : s.selfUnsub
    · rw [if_pos h, ih, List.filter_cons_of_pos (by simpa using h),
        List.diff_cons]
    · rw [if_neg h, ih,
        List.filter_cons_of_neg (by simpa using h)]

/-- Counterexample to C4 on the array-based registry (C4's amended
theorem below): `arr.splice(i, 1)` removes the element at index `i`
(out-of-range is a no-op). -/
def spliceAt (l : List Sub) (i : Nat) : List Sub :=
  l.take i ++ l.drop (i + 1)

/-- Notification dispatch over the array-based registry of
`createGlobalStateHook` / `createGlobalStateHOC`
(`for (const f of backend.stateSubs) f(upd)`): the JS array iterator reads
the LIVE array at positions 0, 1, 2, …, stopping once the position is past
the end. When the callback at position `i` unsubscribes itself — its
effect cleanup runs `stateSubs.splice(ind, 1)` with its stored index
`ind = i` — every later element shifts down one position while the
iterator still advances to `i + 1`. `fuel` bounds the recursion; the
initial array length suffices since each step advances the position. -/
def dispatchArr : Nat → List Sub → Nat → List Sub × List Nat
  | 0, arr, _ => (arr, [])
  | fuel + 1, arr, i =>
    match arr[i]? with
    | none => (arr, [])
    | some s =>
      let arr' := if s.selfUnsub then spliceAt arr i else arr
      let r := dispatchArr fuel arr' (i + 1)
      (r.1, s.id :: r.2)

/-- One complete dispatch of a notification to the array-based registry
`arr`, starting the iterator at position 0. -/
def dispatchArrRun (arr : List Sub) : List Sub × List Nat :=
  dispatchArr arr.length arr 0

/-- C4 counterexample: with the array-based registry holding subscribers
1, 2, 3 in that order, subscriber 1 unsubscribing itself inside its own
callback makes the dispatch skip subscriber 2 entirely: only 1 and 3 are
invoked, contradicting the claim that every other currently-registered
subscriber is still invoked exactly once. -/
theorem claim_C4_counterexample :
    (⟨2, false⟩ : Sub) ∈
      ([⟨1, true⟩, ⟨2, false⟩, ⟨3, false⟩] : List Sub) ∧
    (dispatchArrRun [⟨1, true⟩, ⟨2, false⟩, ⟨3, false⟩]).2 = [1, 3] ∧
    2 ∉ (dispatchArrRun [⟨1, true⟩, ⟨2, false⟩, ⟨3, false⟩]).2 := by
  decide

/-- C4 amended: for the Set-based registry of `createState`, a subscriber
unsubscribing itself inside its own callback does not disturb that
dispatch — every subscriber registered at dispatch start is invoked
exactly once, in insertion order — and afterwards the registry holds
exactly the non-self-unsubscribed subscribers, so the unsubscribed
callback receives no notifications from later writes (which dispatch only
to the final registry). For the array-based registry the claim fails: the
subscriber immediately following a self-unsubscriber is skipped (see the
counterexample). -/
theorem claim_C4_amended (reg : List Sub) (hnd : reg.Nodup)
    (hids : (reg.map Sub.id).Nodup) :
    ((dispatchSetRun reg).2 = reg.map Sub.id) ∧
    (∀ s ∈ reg, (dispatchSetRun reg).2.count s.id = 1) ∧
    (∀ s, s ∈ (dispatchSetRun reg).1 ↔ s ∈ reg ∧ s.selfUnsub = false) := by
  refine ⟨dispatchSet_invoked reg reg, ?_, ?_⟩
  · intro s hs
    show List.count s.id (dispatchSet reg reg).2 = 1
    rw [dispatchSet_invoked reg reg]
    exact List.count_eq_one_of_mem hids (List.mem_map.2 ⟨s, hs, rfl⟩)
  · intro s
    show s ∈ (dispatchSet reg reg).1 ↔ _
    rw [dispatchSet_registry reg reg, hnd.mem_diff_iff, List.mem_filter]
    constructor
    · rintro ⟨hmem, hnotf⟩
      refine ⟨hmem, ?_⟩
      by_contra hself
      exact hnotf ⟨hmem, by simpa using hself⟩
    · rintro ⟨hmem, hself⟩
      exact ⟨hmem, fun hf => by rw [hself] at hf; exact absurd hf.2 (by simp)⟩

/-- Witness for C4's amended theorem at a concrete input: subscribers 1
(self-unsubscribing) and 2; both are invoked once and only subscriber 2
remains registered. -/
theorem claim_C4_witness :
    (dispatchSetRun [⟨1, true⟩, ⟨2, false⟩]).2 = [1, 2] ∧
    ((⟨1, true⟩ : Sub) ∈ (dispatchSetRun [⟨1, true⟩, ⟨2, false⟩]).1
      ↔ (⟨1, true⟩ : Sub) ∈ ([⟨1, true⟩, ⟨2, false⟩] : List Sub)
        ∧ (true : Bool) = false) := by
  have h := claim_C4_amended [⟨1, true⟩, ⟨2, false⟩] (by decide) (by decide)
  exact ⟨h.1, h.2.2 ⟨1, true⟩⟩

/-- The unsubscribe operation of the Set-based registry: the effect
cleanup runs `stateSubs.delete(cb)`, removing the callback by identity. -/
def unsubSetReg (subs : List Nat) (c : Nat) : List Nat := subs.erase c

/-- The unsubscribe operation of the array-based registry: the cleanup
runs `backend.stateSubs.splice(ind, 1)` with the index `ind` recorded at
subscription time — it removes whatever element currently occupies
position `ind`. -/
def unsubArrReg (subs : List Nat) (ind : Nat) : List Nat :=
  subs.take ind ++ subs.drop (ind + 1)

/-- C7 counterexample: with the array-based registry `[10, 20]`,
subscriber 10's unsubscribe (stored index 0) invoked a second time
removes subscriber 20 — which never unsubscribed — contradicting the
claim that a second invocation removes no other subscriber. -/
theorem claim_C7_counterexample :
    unsubArrReg (unsubArrReg [10, 20] 0) 0 = [] ∧
    (20 : Nat) ∈ ([10, 20] : List Nat) ∧
    (20 : Nat) ∉ unsubArrReg (unsubArrReg [10, 20] 0) 0 := by
  decide

/-- C7 amended: for the Set-based registry of `createState`, invoking a
subscriber's unsubscribe a second time is a no-op — it raises no error
(`erase` is total) and removes no other subscriber — since the callback
is already absent after the first removal. For the array-based registry
of `createGlobalStateHook`/`createGlobalStateHOC`, a second `splice` at
the stored index can remove a different subscriber (see the
counterexample). -/
theorem claim_C7_amended (subs : List Nat) (c : Nat) (hnd : subs.Nodup) :
    unsubSetReg (unsubSetReg subs c) c = unsubSetReg subs c ∧
    (∀ x, x ≠ c → (x ∈ unsubSetReg subs c ↔ x ∈ subs)) := by
  constructor
  · apply List.erase_of_not_mem
    exact hnd.not_mem_erase
  · intro x hx
    show x ∈ subs.erase c ↔ x ∈ subs
    rw [hnd.mem_erase_iff]
    exact ⟨fun h => h.2, fun h => ⟨hx, h⟩⟩

/-- Witness for C7's amended theorem at a concrete input: registry
`[10, 20]`, double-unsubscribe of 10 leaves `[20]` both times and keeps
20 registered. -/
theorem claim_C7_witness :
    unsubSetReg (unsubSetReg [10, 20] 10) 10 = unsubSetReg [10, 20] 10 ∧
    ((20 : Nat) ∈ unsubSetReg [10, 20] 10 ↔ (20 : Nat) ∈ ([10, 20] : List Nat)) := by
  have h := claim_C7_amended [10, 20] 10 (by decide)
  exact ⟨h.1, h.2 20 (by decide)⟩

/-- The opening-brace character of a JSON object literal. -/
def lbrace : Char := Char.ofNat 123

/-- The closing-brace character of a JSON object literal. -/
def rbrace : Char := Char.ofNat 125

/-- Skip space characters. -/
def skipWs : List Char → List Char
  | c :: rest => if c = ' ' then skipWs rest else c :: rest
  | [] => []

/-- Scan the body of a JSON string literal up to its closing quote
(escape sequences not modelled: the records this backend writes contain
none, and an unterminated literal fails as in `JSON.parse`). -/
def scanStringBody : List Char → Option (String × List Char)
  | [] => none
  | c :: rest =>
    if c = '"' then some ("", rest)
    else
      match scanStringBody rest with
      | some (s, rem) => some (String.mk (c :: s.data), rem)
      | none => none

/-- Parse a JSON string literal starting at its opening quote. -/
def parseStringLit : List Char → Option (String × List Char)
  | c :: rest => if c = '"' then scanStringBody rest else none
  | [] => none

/-- Parse `"key": "value"` pairs separated by commas, up to and including
the object's closing brace; `fuel` bounds the number of pairs. -/
def parsePairs : Nat → List Char → Option (List (String × String) × List Char)
  | 0, _ => none
  | fuel + 1, l =>
    match parseStringLit (skipWs l) with
    | none => none
    | some (k, rest1) =>
      match skipWs rest1 with
      | c :: rest2 =>
        if c = ':' then
          match parseStringLit (skipWs rest2) with
          | none => none
          | some (v, rest3) =>
            match skipWs rest3 with
            | c2 :: rest4 =>
              if c2 = ',' then
                match parsePairs fuel rest4 with
                | some (ps, rem) => some ((k, v) :: ps, rem)
                | none => none
              else if c2 = rbrace then some ([(k, v)], rest4)
              else none
            | [] => none
        else none
      | [] => none

/-- A model of `JSON.parse` on the flat, string-valued records this
backend persists: accepts an object literal — empty or a comma-separated
list of string pairs — surrounded by optional spaces, and fails (`none`,
modelling the thrown `SyntaxError`) on anything else; every input it
accepts is also accepted by `JSON.parse`, and the malformed inputs used
below are rejected by both. -/
def jsonParseFlat (s : String) : Option (List (String × String)) :=
  match skipWs s.data with
  | c :: rest =>
    if c = lbrace then
      match skipWs rest with
      | c2 :: rest2 =>
        if c2 = rbrace then
          match skipWs rest2 with
          | [] => some []
          | _ => none
        else
          match parsePairs (rest2.length + 1) (c2 :: rest2) with
          | some (ps, rem) =>
            match skipWs rem with
            | [] => some ps
            | _ => none
          | none => none
      | [] => none
    else none
  | [] => none

/-- Construction of the local-storage backend
(`this.gs = JSON.parse(localStorage.getItem(keyName) || ...)` with the
empty-object literal as the fallback text): `stored` is what
`localStorage.getItem(keyName)` returned (`none` models `null`, an
absent record). JS `||` substitutes the fallback for `null` and for the
falsy empty string; `JSON.parse` is called with NO surrounding
`try`/`catch`, so a parse failure propagates to the caller as a thrown
`SyntaxError`, modelled by `Except.error`. -/
def lsBackendInit (stored : Option String) :
    Except String (List (String × String)) :=
  let text :=
    match stored with
    | none => String.mk [lbrace, rbrace]
    | some s => if s = "" then String.mk [lbrace, rbrace] else s
  match jsonParseFlat text with
  | some m => Except.ok m
  | none => Except.error "SyntaxError: Unexpected token in JSON"

/-- C8 counterexample: for the persisted record `"oops"` — unparsable as
JSON, in the model exactly as under `JSON.parse` — construction of the
local-storage backend does NOT succeed with an empty mapping: the parse
error surfaces to the caller, contradicting the claim's fail-open load. -/
theorem claim_C8_counterexample :
    lsBackendInit (some "oops")
      = Except.error "SyntaxError: Unexpected token in JSON" := by
  rfl

/-- C8 amended: when the persisted record is absent (`getItem` returned
`null` — or the falsy empty string), construction succeeds with the
in-memory mapping initialized to the empty mapping and no error; but when
a non-empty persisted record is unparsable, `JSON.parse` throws and the
error propagates out of the constructor (there is no try/catch), so only
the absent case is fail-open. -/
theorem claim_C8_amended (stored : Option String) :
    (stored = none → lsBackendInit stored = Except.ok []) ∧
    (stored = some "" → lsBackendInit stored = Except.ok []) ∧
    (∀ s, stored = some s → s ≠ "" → jsonParseFlat s = none →
      lsBackendInit stored
        = Except.error "SyntaxError: Unexpected token in JSON") := by
  refine ⟨?_, ?_, ?_⟩
  · rintro rfl
    rfl
  · rintro rfl
    rfl
  · rintro s rfl hne hparse
    show (match jsonParseFlat (if s = "" then _ else s) with
      | some m => Except.ok m
      | none => Except.error _) = _
    rw [if_neg hne, hparse]

/-- Witness for C8's amended theorem at concrete inputs: an absent record
yields the empty mapping, the unparsable record `"oops"` yields the
propagated parse error. -/
theorem claim_C8_witness :
    lsBackendInit none = Except.ok [] ∧
    lsBackendInit (some "")  = Except.ok [] ∧
    lsBackendInit (some "not json")
      = Except.error "SyntaxError: Unexpected token in JSON" := by
  refine ⟨(claim_C8_amended none).1 rfl, (claim_C8_amended (some "")).2.1 rfl,
    (claim_C8_amended (some "not json")).2.2 "not json" rfl (by decide)
      (by decide)⟩

end ReactUniversalState
